import Mathlib

/-!
Shallow embedding of the nnrecommend factorization-machine recommender
(src/nnrecommend/fmachine.py, src/nnrecommend/cli/recommend.py,
src/nnrecommend/tests/test_movielens.py), with theorems checking the
natural-language specification against the code.

Numeric tensors are modelled over the rationals; a per-field embedding
vector of length embed_dim is a function from Fin embed_dim to the
rationals, a batch is a list.
-/

namespace Nnrecommend

/-- Per-dimension sum over the field axis of one example:
models torch.sum(x, dim=1) in FactorizationMachineOperation.forward,
for one example x of shape (num_fields, embed_dim) given as a list of
per-field vectors. -/
def fieldSum {m : ℕ} (l : List (Fin m → ℚ)) : Fin m → ℚ :=
  fun d => (l.map (fun v => v d)).sum

/-- Models the square_of_sum tensor of FactorizationMachineOperation.forward
(line 38 of fmachine.py) for one example. -/
def squareOfSum {m : ℕ} (l : List (Fin m → ℚ)) : Fin m → ℚ :=
  fun d => (fieldSum l d) ^ 2

/-- Models the sum_of_square tensor of FactorizationMachineOperation.forward
(line 39 of fmachine.py) for one example. -/
def sumOfSquare {m : ℕ} (l : List (Fin m → ℚ)) : Fin m → ℚ :=
  fun d => (l.map (fun v => (v d) ^ 2)).sum

/-- Models FactorizationMachineOperation.forward with reduce_sum=True on one
example: 0.5 * sum over embedding dimensions d of
(square_of_sum - sum_of_square). -/
def fmOperationForward {m : ℕ} (l : List (Fin m → ℚ)) : ℚ :=
  (1 / 2) * ∑ d : Fin m, (squareOfSum l d - sumOfSquare l d)

/-- Dot product of two embedding vectors. -/
def dotQ {m : ℕ} (u v : Fin m → ℚ) : ℚ := ∑ d : Fin m, u d * v d

/-- Brute-force sum of dot products over all unordered field pairs (f, g)
with f before g in the list. -/
def pairwiseSum {m : ℕ} : List (Fin m → ℚ) → ℚ
  | [] => 0
  | v :: l => (l.map (fun w => dotQ v w)).sum + pairwiseSum l

lemma fieldSum_nil {m : ℕ} : fieldSum ([] : List (Fin m → ℚ)) = fun _ => 0 := by
  funext d; simp [fieldSum]

lemma fieldSum_cons {m : ℕ} (v : Fin m → ℚ) (l : List (Fin m → ℚ)) :
    fieldSum (v :: l) = fun d => v d + fieldSum l d := by
  funext d; simp [fieldSum]

lemma sumOfSquare_cons {m : ℕ} (v : Fin m → ℚ) (l : List (Fin m → ℚ)) :
    sumOfSquare (v :: l) = fun d => (v d) ^ 2 + sumOfSquare l d := by
  funext d; simp [sumOfSquare]

lemma dot_fieldSum {m : ℕ} (v : Fin m → ℚ) (l : List (Fin m → ℚ)) :
    (l.map (fun w => dotQ v w)).sum = ∑ d : Fin m, v d * fieldSum l d := by
  induction l with
  | nil => simp [fieldSum_nil]
  | cons w l ih =>
      simp only [List.map_cons, List.sum_cons, ih, fieldSum_cons]
      simp only [mul_add]
      rw [Finset.sum_add_distrib]
      simp [dotQ]

/-- Core polynomial identity: the FM interaction term equals the brute-force
pairwise dot-product sum, exactly over the rationals. -/
lemma fmOperationForward_eq_pairwiseSum {m : ℕ} (l : List (Fin m → ℚ)) :
    fmOperationForward l = pairwiseSum l := by
  induction l with
  | nil => simp [fmOperationForward, pairwiseSum, squareOfSum, sumOfSquare, fieldSum_nil]
  | cons v l ih =>
      have hexp : ∀ d : Fin m,
          squareOfSum (v :: l) d - sumOfSquare (v :: l) d =
          2 * (v d * fieldSum l d) + (squareOfSum l d - sumOfSquare l d) := by
        intro d
        simp only [squareOfSum, sumOfSquare, fieldSum_cons, fieldSum]
        simp only [List.map_cons, List.sum_cons]
        ring
      unfold pairwiseSum
      rw [← ih, dot_fieldSum]
      unfold fmOperationForward
      rw [Finset.sum_congr rfl (fun d _ => hexp d), Finset.sum_add_distrib,
        ← Finset.mul_sum]
      ring

/-- C1: for every example given as a list of per-field embedding vectors of
length embed_dim, the pairwise-interaction term computed by
FactorizationMachineOperation.forward via the polynomial identity
0.5 * sum_d[(sum_f v_f,d)^2 - sum_f v_f,d^2] equals the brute-force sum over
all unordered field pairs of their dot products, exactly over the rationals;
hence the equality holds at every row of every batch. -/
theorem fm_interaction_eq_bruteforce :
    ∀ (m : ℕ) (x : List (Fin m → ℚ)),
      fmOperationForward x = pairwiseSum x ∧
      ∀ (batch : List (List (Fin m → ℚ))),
        batch.map (fun e => fmOperationForward e) =
        batch.map (fun e => pairwiseSum e) := by
  intro m x
  refine ⟨fmOperationForward_eq_pairwiseSum x, ?_⟩
  intro batch
  exact List.map_congr_left (fun e _ => fmOperationForward_eq_pairwiseSum e)

/-- C10: the FM interaction term is invariant under any permutation of the
field axis, and for a single field (num_fields = 1) it is zero for every
input. -/
theorem fm_interaction_perm_invariant :
    (∀ (m : ℕ) (x y : List (Fin m → ℚ)), x.Perm y →
        fmOperationForward x = fmOperationForward y) ∧
    (∀ (m : ℕ) (v : Fin m → ℚ), fmOperationForward [v] = 0) := by
  constructor
  · intro m x y hp
    have hs : fieldSum x = fieldSum y := by
      funext d
      exact List.Perm.sum_eq (List.Perm.map (fun v => v d) hp)
    have hq : sumOfSquare x = sumOfSquare y := by
      funext d
      exact List.Perm.sum_eq (List.Perm.map (fun v => (v d) ^ 2) hp)
    unfold fmOperationForward squareOfSum
    rw [hs, hq]
  · intro m v
    simp [fmOperationForward, squareOfSum, sumOfSquare, fieldSum]

/-- Concrete instance of the permutation-invariance theorem: swapping the two
fields of a 2-field example with 1-dimensional embeddings 2 and 3 leaves the
interaction term unchanged. -/
theorem fm_interaction_perm_invariant_witness :
    List.Perm [(fun _ => (2 : ℚ) : Fin 1 → ℚ), fun _ => 3]
      [(fun _ => (3 : ℚ) : Fin 1 → ℚ), fun _ => 2] ∧
    fmOperationForward [(fun _ => (2 : ℚ) : Fin 1 → ℚ), fun _ => 3] =
      fmOperationForward [(fun _ => (3 : ℚ) : Fin 1 → ℚ), fun _ => 2] :=
  ⟨List.Perm.swap _ _ _,
   fm_interaction_perm_invariant.1 1 _ _ (List.Perm.swap _ _ _)⟩

/-- Parameters of LinearFeatures (fmachine.py lines 13-16): the per-field-id
scalar weight table fc = torch.nn.Embedding(field_dim, 1) and the bias. -/
structure LinearFeaturesP where
  fc : ℕ → ℚ
  bias : ℚ

/-- Models LinearFeatures.forward (fmachine.py lines 18-22) on a batch:
torch.sum(self.fc(x), dim=1) + self.bias, one scalar per row. -/
def LinearFeaturesP.forward (p : LinearFeaturesP) (rows : List (List ℕ)) : List ℚ :=
  rows.map (fun r => (r.map p.fc).sum + p.bias)

/-- Parameters of FactorizationMachineModel as used by its forward: the
linear part and an embedding lookup from global field id to its embed_dim
vector (plain table, or the graph variant's convolution output rows). -/
structure FMModelP (m : ℕ) where
  linear : LinearFeaturesP
  emb : ℕ → Fin m → ℚ

/-- Models FactorizationMachineModel.forward (fmachine.py lines 100-105):
out = self.linear(interactions) + self.fm(self.embedding(interactions)),
elementwise over the batch, then out.squeeze(1) giving one scalar per row. -/
def FMModelP.forward {m : ℕ} (p : FMModelP m) (rows : List (List ℕ)) : List ℚ :=
  List.zipWith (fun a b => a + b)
    (p.linear.forward rows)
    (rows.map (fun r => fmOperationForward (r.map p.emb)))

lemma FMModelP.forward_get {m : ℕ} (p : FMModelP m) :
    ∀ (rows : List (List ℕ)) (i : ℕ) (r : List ℕ), rows.get? i = some r →
      (p.forward rows).get? i =
        some (((r.map p.linear.fc).sum + p.linear.bias) +
          pairwiseSum (r.map p.emb)) := by
  intro rows
  induction rows with
  | nil => intro i r h; simp at h
  | cons r0 rest ih =>
      intro i r h
      cases i with
      | zero =>
          simp only [List.get?] at h
          cases h
          simp [FMModelP.forward, LinearFeaturesP.forward,
            fmOperationForward_eq_pairwiseSum]
      | succ j =>
          simp only [List.get?] at h
          have := ih j r h
          simpa [FMModelP.forward, LinearFeaturesP.forward] using this

/-- C2: FactorizationMachineModel.forward returns exactly one scalar per row,
and each scalar equals the linear term over that row's field ids (sum of the
per-id weights plus the shared bias) plus the pairwise-interaction term over
the embeddings looked up for those ids, with no probability squashing. -/
theorem model_forward_linear_plus_interaction :
    ∀ (m : ℕ) (p : FMModelP m) (rows : List (List ℕ)),
      (p.forward rows).length = rows.length ∧
      ∀ (i : ℕ) (r : List ℕ), rows.get? i = some r →
        (p.forward rows).get? i =
          some (((r.map p.linear.fc).sum + p.linear.bias) +
            pairwiseSum (r.map p.emb)) := by
  intro m p rows
  constructor
  · simp [FMModelP.forward, LinearFeaturesP.forward]
  · exact p.forward_get rows

/-- A small concrete model used to instantiate the forward theorem. -/
def sampleModel : FMModelP 1 :=
  ⟨⟨fun i => (i : ℚ), 1⟩, fun i _ => (i : ℚ)⟩

/-- Concrete instance of the forward theorem on the one-row batch [[1, 2]]. -/
theorem model_forward_linear_plus_interaction_witness :
    ([[1, 2]] : List (List ℕ)).get? 0 = some [1, 2] ∧
    (sampleModel.forward [[1, 2]]).get? 0 =
      some ((([1, 2].map sampleModel.linear.fc).sum + sampleModel.linear.bias) +
        pairwiseSum ([1, 2].map sampleModel.emb)) :=
  ⟨rfl, (model_forward_linear_plus_interaction 1 sampleModel [[1, 2]]).2 0 [1, 2] rfl⟩

/-- A dense matrix with explicit shape, modelling a torch parameter tensor. -/
structure Mat where
  rows : ℕ
  cols : ℕ
  entry : ℕ → ℕ → ℚ

/-- Shape of a matrix, as (rows, cols). -/
def Mat.shape (a : Mat) : ℕ × ℕ := (a.rows, a.cols)

/-- Models tensor.transpose(0, 1). -/
def Mat.transpose (a : Mat) : Mat := ⟨a.cols, a.rows, fun i j => a.entry j i⟩

/-- Models the weight of torch.nn.Embedding(field_dim, embed_dim): shape
(field_dim, embed_dim) (fmachine.py line 84). The entries are the learned
parameters, supplied as w. -/
def embeddingWeight (fd ed : ℕ) (w : ℕ → ℕ → ℚ) : Mat := ⟨fd, ed, w⟩

/-- Models the weight parameter of torch_geometric 1.x GCNConv(in_channels,
out_channels): shape (in_channels, out_channels). -/
def gcnConvWeight (inC outC : ℕ) (w : ℕ → ℕ → ℚ) : Mat := ⟨inC, outC, w⟩

/-- Models the lin_r.weight parameter of torch_geometric 1.x
GATConv(in_channels, out_channels, heads): lin_r is
Linear(in_channels, heads * out_channels), whose weight has shape
(heads * out_channels, in_channels). -/
def gatConvLinRWeight (inC outC heads : ℕ) (w : ℕ → ℕ → ℚ) : Mat :=
  ⟨heads * outC, inC, w⟩

/-- The two embedding variants a FactorizationMachineModel can be constructed
with (fmachine.py lines 83-90): the plain lookup table, or the GraphModel
holding either a GCNConv (attention = false) or a GATConv with heads = 8
(attention = true); the stored matrix is the raw parameter the source reads
(embedding.weight, gcn.weight, or gcn.lin_r.weight respectively). -/
inductive EmbeddingVariant where
  | plain (w : Mat)
  | graph (attention : Bool) (w : Mat)

/-- Models the embedding construction in FactorizationMachineModel.__init__
(fmachine.py lines 83-90): plain torch.nn.Embedding(field_dim, embed_dim)
when no matrix is supplied, otherwise a GraphModel whose convolution layer
is GCNConv(field_dim, embed_dim) or GATConv(field_dim, embed_dim, heads=8). -/
def mkModelEmbedding (fd ed : ℕ) (matrixSupplied attention : Bool)
    (w : ℕ → ℕ → ℚ) : EmbeddingVariant :=
  if matrixSupplied then
    EmbeddingVariant.graph attention
      (if attention then gatConvLinRWeight fd ed 8 w else gcnConvWeight fd ed w)
  else
    EmbeddingVariant.plain (embeddingWeight fd ed w)

/-- Models GraphModel.get_embedding_weight (fmachine.py lines 57-61): if the
convolution layer has a lin_r attribute (GATConv does, GCNConv does not),
return lin_r.weight.transpose(0, 1), else return gcn.weight. -/
def GraphModel.get_embedding_weight (attention : Bool) (w : Mat) : Mat :=
  if attention then w.transpose else w

/-- Models the error raised at fmachine.py line 98, io.UnsupportedOperation,
named UnsupportedOperationError by the specification. -/
inductive UnsupportedOperationError where
  | mk

/-- The duck-typed attribute surface that FactorizationMachineModel.
get_embedding_weight probes with hasattr: a value of some w models the
attribute being present with value w, none models a missing attribute. -/
structure EmbeddingAttrs where
  getEmbeddingWeightAttr : Option Mat
  weightAttr : Option Mat

/-- The attributes each shipped embedding variant exposes:
torch.nn.Embedding has a weight attribute and no get_embedding_weight
method; GraphModel has a get_embedding_weight method and no weight
attribute. -/
def EmbeddingVariant.attrs : EmbeddingVariant → EmbeddingAttrs
  | .plain w => ⟨none, some w⟩
  | .graph attention w => ⟨some (GraphModel.get_embedding_weight attention w), none⟩

/-- Models FactorizationMachineModel.get_embedding_weight (fmachine.py lines
92-98): return embedding.get_embedding_weight() if that attribute exists,
else embedding.weight if that attribute exists, else raise the error. -/
def FactorizationMachineModel.get_embedding_weight (e : EmbeddingAttrs) :
    Except UnsupportedOperationError Mat :=
  match e.getEmbeddingWeightAttr with
  | some w => Except.ok w
  | none =>
      match e.weightAttr with
      | some w => Except.ok w
      | none => Except.error UnsupportedOperationError.mk

/-- Shape of the model-level embedding-weight matrix for a variant. -/
def weightShape (v : EmbeddingVariant) : Except UnsupportedOperationError (ℕ × ℕ) :=
  (FactorizationMachineModel.get_embedding_weight v.attrs).map Mat.shape

/-- C3 counterexample: for field_dim = 2, embed_dim = 3 and the
graph-with-attention variant, get_embedding_weight returns a matrix of shape
(2, 24) = (field_dim, heads * embed_dim) with heads = 8, not (2, 3). -/
theorem get_embedding_weight_shape_attention_cex :
    weightShape (mkModelEmbedding 2 3 true true (fun _ _ => 0)) =
      Except.ok (2, 24) ∧
    weightShape (mkModelEmbedding 2 3 true true (fun _ _ => 0)) ≠
      Except.ok (2, 3) := by
  constructor
  · rfl
  · intro h
    simp [weightShape, mkModelEmbedding, EmbeddingVariant.attrs,
      FactorizationMachineModel.get_embedding_weight,
      GraphModel.get_embedding_weight, gatConvLinRWeight, Mat.transpose,
      Mat.shape, Except.map] at h

/-- C3 amended: get_embedding_weight() returns a matrix of shape
(field_dim, embed_dim) for the plain lookup-table variant and for the
graph-convolution variant without attention; for the attention variant it
returns a matrix of shape (field_dim, 8 * embed_dim), 8 being the GATConv
head count. -/
theorem get_embedding_weight_shape (fd ed : ℕ) (w : ℕ → ℕ → ℚ) :
    weightShape (mkModelEmbedding fd ed false false w) = Except.ok (fd, ed) ∧
    weightShape (mkModelEmbedding fd ed false true w) = Except.ok (fd, ed) ∧
    weightShape (mkModelEmbedding fd ed true false w) = Except.ok (fd, ed) ∧
    weightShape (mkModelEmbedding fd ed true true w) = Except.ok (fd, 8 * ed) :=
  ⟨rfl, rfl, rfl, rfl⟩

/-- C4: FactorizationMachineModel.get_embedding_weight fails with
UnsupportedOperationError if and only if the embedding module exposes
neither a get_embedding_weight capability nor a direct weight attribute, and
for every embedding the constructor can build (plain table or graph
convolution, with or without attention) it never fails. -/
theorem get_embedding_weight_unsupported_iff :
    (∀ e : EmbeddingAttrs,
        (∃ err, FactorizationMachineModel.get_embedding_weight e =
          Except.error err) ↔
        (e.getEmbeddingWeightAttr = none ∧ e.weightAttr = none)) ∧
    (∀ (fd ed : ℕ) (ms att : Bool) (w : ℕ → ℕ → ℚ),
        ∃ m, FactorizationMachineModel.get_embedding_weight
          (mkModelEmbedding fd ed ms att w).attrs = Except.ok m) := by
  constructor
  · intro e
    cases e with
    | mk g wa =>
        cases g with
        | some w =>
            simp [FactorizationMachineModel.get_embedding_weight]
        | none =>
            cases wa with
            | some w =>
                simp [FactorizationMachineModel.get_embedding_weight]
            | none =>
                exact ⟨fun _ => ⟨rfl, rfl⟩,
                  fun _ => ⟨UnsupportedOperationError.mk, rfl⟩⟩
  · intro fd ed ms att w
    cases ms with
    | false =>
        exact ⟨_, rfl⟩
    | true =>
        cases att with
        | false => exact ⟨_, rfl⟩
        | true => exact ⟨_, rfl⟩

/-- A scipy sparse matrix in COO form: a shape and the list of nonzero
entries (row, col, value), already coalesced (no duplicate coordinates). -/
structure SpMatrix where
  shape : ℕ × ℕ
  entries : List (ℕ × ℕ × ℚ)

/-- A torch sparse COO tensor: index pairs, values, and a size. Tensors built
by sparse_scipy_matrix_to_tensor from a coalesced scipy matrix are already
coalesced, so tensor.coalesce() is the identity on them and is modelled as
such. -/
structure SpTensor where
  indices : List (ℕ × ℕ)
  values : List ℚ
  size : ℕ × ℕ

/-- Models sparse_scipy_matrix_to_tensor (fmachine.py lines 108-114):
indices from the COO row/col arrays, values from the data array, and the
shape taken from the scipy matrix. -/
def sparse_scipy_matrix_to_tensor (m : SpMatrix) : SpTensor :=
  ⟨m.entries.map (fun e => (e.1, e.2.1)),
   m.entries.map (fun e => e.2.2),
   m.shape⟩

/-- Models torch_geometric's maybe_num_nodes(edge_index, None): the maximal
index occurring in edge_index plus one, and 0 for an empty edge_index. -/
def maybeNumNodes (indices : List (ℕ × ℕ)) : ℕ :=
  match indices with
  | [] => 0
  | _ => (indices.map (fun p => max p.1 p.2)).foldr max 0 + 1

/-- Models torch_geometric.utils.to_scipy_sparse_matrix(edge_index,
edge_attr) called without num_nodes: the result is square of side
maybe_num_nodes(edge_index), with one entry per index pair. -/
def to_scipy_sparse_matrix (indices : List (ℕ × ℕ)) (values : List ℚ) :
    SpMatrix :=
  ⟨(maybeNumNodes indices, maybeNumNodes indices),
   List.zipWith (fun p v => (p.1, p.2, v)) indices values⟩

/-- Models sparse_tensor_to_scipy_matrix (fmachine.py lines 117-119):
coalesce (identity here) and convert indices and values back, without
passing the tensor's size. -/
def sparse_tensor_to_scipy_matrix (t : SpTensor) : SpMatrix :=
  to_scipy_sparse_matrix t.indices t.values

lemma zipWith_map_same {α β γ δ : Type} (f : β → γ → δ) (g : α → β)
    (h : α → γ) (l : List α) :
    List.zipWith f (l.map g) (l.map h) = l.map (fun e => f (g e) (h e)) := by
  induction l with
  | nil => rfl
  | cons a l ih => simp [ih]

/-- C9 counterexample: for the 3 x 3 matrix with a single nonzero at (0, 0),
the round trip returns a matrix of shape (1, 1), not (3, 3): the original
shape is discarded because to_scipy_sparse_matrix receives no num_nodes. -/
theorem sparse_roundtrip_shape_cex :
    (sparse_tensor_to_scipy_matrix
      (sparse_scipy_matrix_to_tensor ⟨(3, 3), [(0, 0, 1)]⟩)).shape = (1, 1) ∧
    (SpMatrix.mk (3, 3) [(0, 0, 1)]).shape = (3, 3) ∧
    ((1, 1) : ℕ × ℕ) ≠ (3, 3) := by
  refine ⟨rfl, rfl, ?_⟩
  decide

/-- C9 amended: the round trip preserves the nonzero entries exactly, but
the shape becomes the square (N, N) with N = max index occurring among the
nonzero entries plus one (0 if there are none); the original shape is
recovered only when it already equals that (N, N), so trailing all-zero rows
or columns are lost. -/
theorem sparse_roundtrip_entries :
    ∀ (m : SpMatrix),
      (sparse_tensor_to_scipy_matrix (sparse_scipy_matrix_to_tensor m)).entries
        = m.entries ∧
      (sparse_tensor_to_scipy_matrix (sparse_scipy_matrix_to_tensor m)).shape
        = (maybeNumNodes (m.entries.map (fun e => (e.1, e.2.1))),
           maybeNumNodes (m.entries.map (fun e => (e.1, e.2.1)))) := by
  intro m
  constructor
  · show List.zipWith _ (m.entries.map _) (m.entries.map _) = m.entries
    rw [zipWith_map_same]
    simp
  · rfl

/-- One interaction row: (user id, item id, label, timestamp). -/
abbrev Row : Type := ℕ × ℕ × ℕ × ℕ

/-- User-id column of a row. -/
def rowUser (r : Row) : ℕ := r.1

/-- Item-id column of a row. -/
def rowItem (r : Row) : ℕ := r.2.1

/-- Largest raw user id occurring in the rows (0 when empty). -/
def maxUser (rows : List Row) : ℕ := (rows.map rowUser).foldr max 0

/-- Largest raw item id occurring in the rows (0 when empty). -/
def maxItem (rows : List Row) : ℕ := (rows.map rowItem).foldr max 0

/-- Modelled from the spec: Dataset.normalize_ids without a supplied diff
(nnrecommend/dataset.py is not in the excerpt; only its test and callers
are). Per id column the size is max(raw id) + 1; the user column keeps
offset 0, the item column is shifted by the user-column size, and the
reported idrange holds the cumulative interval ends, (943, 2625) style, as
asserted by test_movielens.py. -/
def normalize_ids (rows : List Row) : List Row × (ℕ × ℕ) :=
  (rows.map (fun r => (r.1, r.2.1 + (maxUser rows + 1), r.2.2.1, r.2.2.2)),
   (maxUser rows + 1, maxUser rows + 1 + (maxItem rows + 1)))

/-- A square sparse adjacency matrix: its side and the nonzero coordinate
pairs. -/
structure AdjMatrix where
  size : ℕ
  edges : List (ℕ × ℕ)

/-- Shape of the adjacency matrix, (side, side). -/
def AdjMatrix.shape (m : AdjMatrix) : ℕ × ℕ := (m.size, m.size)

/-- Modelled from the spec: Dataset.create_adjacency_matrix builds a
symmetric square sparse matrix of side sum(IdRange), i.e. the last
cumulative idrange entry, with entries (u, i) and (i, u) for every row. -/
def create_adjacency_matrix (rows : List Row) (idrange : ℕ × ℕ) : AdjMatrix :=
  ⟨idrange.2, rows.flatMap (fun r => [(rowUser r, rowItem r), (rowItem r, rowUser r)])⟩

/-- Modelled from the spec: Dataset.add_negative_sampling(matrix, k) draws,
for each positive row, k item ids by rejection sampling against the matrix
and adds them as label-0 rows carrying the source row's timestamp; the
fixture test (test_movielens.py line 25, dataset[50*5]) pins the layout as
each original row at index (k+1)*i followed by its k negatives. The sampled
item ids are abstracted into the oracle sample, one per source row and
draw. -/
def add_negative_sampling (sample : Row → ℕ → ℕ) (k : ℕ) (rows : List Row) :
    List Row :=
  rows.flatMap (fun r =>
    r :: (List.range k).map (fun j => (rowUser r, sample r j, 0, r.2.2.2)))

lemma add_negative_sampling_length (sample : Row → ℕ → ℕ) (k : ℕ) :
    ∀ rows : List Row,
      (add_negative_sampling sample k rows).length = (k + 1) * rows.length := by
  intro rows
  induction rows with
  | nil => rfl
  | cons r rest ih =>
      simp only [add_negative_sampling, List.flatMap_cons] at ih ⊢
      simp only [List.length_append, List.length_cons, List.length_map,
        List.length_range, ih]
      ring

lemma add_negative_sampling_get_positive (sample : Row → ℕ → ℕ) (k : ℕ) :
    ∀ (rows : List Row) (i : ℕ),
      (add_negative_sampling sample k rows).get? ((k + 1) * i) = rows.get? i := by
  intro rows
  induction rows with
  | nil => intro i; rfl
  | cons r rest ih =>
      intro i
      cases i with
      | zero => simp [add_negative_sampling, List.flatMap_cons]
      | succ j =>
          simp only [add_negative_sampling, List.flatMap_cons] at ih ⊢
          have harith : (k + 1) * (j + 1) = ((k + 1) * j + k) + 1 := by ring
          rw [harith, List.cons_append, List.get?_cons_succ,
            List.get?_append_right
              (by simp only [List.length_map, List.length_range]; omega)]
          simp only [List.length_map, List.length_range]
          have hsub : (k + 1) * j + k - k = (k + 1) * j := by omega
          rw [hsub]
          exact ih j

/-- C6: for a movielens train split of 99,057 positive rows with raw user
ids up to 942, raw item ids up to 1681, and raw row 50 equal to
(0, 113, 1, 875072173): after normalize_ids with no supplied diff and
add_negative_sampling(matrix, 4), the reported idrange is (943, 2625), the
adjacency matrix shape is (2625, 2625), the dataset length is 5 * 99057,
and the row at index 50 * 5 decodes to (0, 113 + 943, 1, 875072173). -/
theorem movielens_train_fixture (rows : List Row) (sample : Row → ℕ → ℕ)
    (h1 : rows.length = 99057) (h2 : maxUser rows = 942)
    (h3 : maxItem rows = 1681)
    (h4 : rows.get? 50 = some (0, 113, 1, 875072173)) :
    (normalize_ids rows).2 = (943, 2625) ∧
    (create_adjacency_matrix (normalize_ids rows).1
      (normalize_ids rows).2).shape = (2625, 2625) ∧
    (add_negative_sampling sample 4 (normalize_ids rows).1).length = 5 * 99057 ∧
    (add_negative_sampling sample 4 (normalize_ids rows).1).get? (50 * 5) =
      some (0, 113 + 943, 1, 875072173) := by
  have hrange : (normalize_ids rows).2 = (943, 2625) := by
    simp [normalize_ids, h2, h3]
  refine ⟨hrange, ?_, ?_, ?_⟩
  · simp [create_adjacency_matrix, AdjMatrix.shape, hrange]
  · rw [add_negative_sampling_length]
    simp [normalize_ids, h1]
  · have h5 : (50 : ℕ) * 5 = (4 + 1) * 50 := by norm_num
    rw [h5, add_negative_sampling_get_positive]
    show (normalize_ids rows).1.get? 50 = _
    simp only [normalize_ids]
    rw [List.get?_map, h4, h2]
    rfl

lemma foldr_max_append (l1 l2 : List ℕ) :
    (l1 ++ l2).foldr max 0 = max (l1.foldr max 0) (l2.foldr max 0) := by
  induction l1 with
  | nil => simp
  | cons a l ih => simp [ih, max_assoc]

lemma foldr_max_replicate (n a : ℕ) (h : 0 < n) :
    (List.replicate n a).foldr max 0 = a := by
  induction n with
  | zero => omega
  | succ m ih =>
      cases Nat.eq_zero_or_pos m with
      | inl h0 => subst h0; simp [List.replicate]
      | inr hpos => simp [List.replicate, ih hpos]

/-- The concrete fixture rows used to instantiate the movielens theorem:
50 filler rows carrying the maximal raw ids, then row 50, then enough
fillers to reach 99,057 rows. -/
def fixtureRows : List Row :=
  List.replicate 50 ((942, 1681, 1, 0) : Row) ++
    (((0, 113, 1, 875072173) : Row) :: List.replicate 99006 ((942, 1681, 1, 0) : Row))

lemma fixtureRows_length : fixtureRows.length = 99057 := by
  unfold fixtureRows
  rw [List.length_append, List.length_cons, List.length_replicate,
    List.length_replicate]

lemma fixtureRows_maxUser : maxUser fixtureRows = 942 := by
  unfold maxUser fixtureRows
  rw [List.map_append, foldr_max_append, List.map_replicate, List.map_cons,
    List.map_replicate, foldr_max_replicate 50 _ (by norm_num),
    List.foldr_cons, foldr_max_replicate 99006 _ (by norm_num)]
  rfl

lemma fixtureRows_maxItem : maxItem fixtureRows = 1681 := by
  unfold maxItem fixtureRows
  rw [List.map_append, foldr_max_append, List.map_replicate, List.map_cons,
    List.map_replicate, foldr_max_replicate 50 _ (by norm_num),
    List.foldr_cons, foldr_max_replicate 99006 _ (by norm_num)]
  rfl

lemma fixtureRows_get50 : fixtureRows.get? 50 = some (0, 113, 1, 875072173) := by
  unfold fixtureRows
  rw [List.get?_append_right (by rw [List.length_replicate])]
  rw [List.length_replicate]
  rfl

/-- Concrete instance of the movielens fixture theorem at fixtureRows with a
constant sampling oracle. -/
theorem movielens_train_fixture_witness :
    fixtureRows.length = 99057 ∧
    (add_negative_sampling (fun _ _ => 0) 4 (normalize_ids fixtureRows).1).get?
      (50 * 5) = some (0, 113 + 943, 1, 875072173) :=
  ⟨fixtureRows_length,
   (movielens_train_fixture fixtureRows (fun _ _ => 0) fixtureRows_length
      fixtureRows_maxUser fixtureRows_maxItem fixtureRows_get50).2.2.2⟩

/-- Models scipy.sparse.identity(n) (fmachine.py line 87): the n x n
identity matrix; entry (i, j) is 1 exactly on the diagonal. -/
def sparseIdentity (n : ℕ) : Mat := ⟨n, n, fun i j => if i = j then 1 else 0⟩

/-- Models torch_geometric.utils.from_scipy_sparse_matrix: the edge-index
listing the nonzero coordinate pairs of the adjacency matrix. -/
def from_scipy_sparse_matrix (m : AdjMatrix) : List (ℕ × ℕ) := m.edges

/-- The GraphModel state stored at construction (fmachine.py lines 47-50):
the feature matrix and the edge-index matrix. -/
structure GraphModelP where
  features : Mat
  matrix : List (ℕ × ℕ)

/-- Models the graph branch of FactorizationMachineModel.__init__
(fmachine.py lines 86-90): features = sparse identity of side
matrix.shape[0] converted to a tensor, indices from the adjacency matrix. -/
def mkGraphModel (adj : AdjMatrix) : GraphModelP :=
  ⟨sparseIdentity adj.shape.1, from_scipy_sparse_matrix adj⟩

/-- Models GraphModel.forward (fmachine.py lines 63-67):
self.gcn(self.features, self.matrix)[x] — one convolution pass over the
stored features and edge index, then row indexing by the entries of the
batch x; the convolution layer itself is the abstract parameter gcn. -/
def GraphModelP.forward (gcn : Mat → List (ℕ × ℕ) → Mat) (g : GraphModelP)
    (x : List (List ℕ)) : List (List (ℕ → ℚ)) :=
  x.map (fun row => row.map (fun i => (gcn g.features g.matrix).entry i))

/-- C7: the graph variant's initial node-feature matrix is the identity of
side matrix.shape[0] (for an adjacency matrix built over the dataset, side
sum(IdRange)), so each node's feature row is its own one-hot indicator, and
the embedding lookup for a batch x is one convolution pass over the feature
matrix and the adjacency edge index followed by indexing the rows x of the
result. -/
theorem graph_embedding_identity_features :
    ∀ adj : AdjMatrix,
      (mkGraphModel adj).features.shape = (adj.size, adj.size) ∧
      (∀ i j : ℕ, (mkGraphModel adj).features.entry i j =
        if j = i then 1 else 0) ∧
      (∀ rows : List Row,
        (mkGraphModel (create_adjacency_matrix rows
          (normalize_ids rows).2)).features.shape =
        ((normalize_ids rows).2.2, (normalize_ids rows).2.2)) ∧
      (∀ (gcn : Mat → List (ℕ × ℕ) → Mat) (x : List (List ℕ)),
        GraphModelP.forward gcn (mkGraphModel adj) x =
          x.map (fun row => row.map (fun i =>
            (gcn (sparseIdentity adj.size) adj.edges).entry i))) := by
  intro adj
  refine ⟨rfl, ?_, fun rows => rfl, fun gcn x => rfl⟩
  intro i j
  simp only [mkGraphModel, sparseIdentity, AdjMatrix.shape]
  by_cases h : i = j
  · subst h; simp
  · rw [if_neg h, if_neg (fun hji => h hji.symm)]

/-- Training / evaluation mode of a torch module. -/
inductive Mode where
  | train
  | eval

/-- Models the dropout that GATConv applies to its attention coefficients
(fmachine.py line 53, dropout=0.6): in training mode each coefficient is
zeroed where the random mask fires and rescaled by 1/(1 - 0.6) = 5/2
otherwise; in evaluation mode dropout is the identity and the mask is never
consulted. -/
def dropoutAttention (mode : Mode) (mask : ℕ → ℕ → Bool)
    (a : ℕ → ℕ → ℚ) : ℕ → ℕ → ℚ :=
  match mode with
  | Mode.train => fun i j => if mask i j then 0 else a i j * (5 / 2)
  | Mode.eval => a

/-- Models one GATConv pass at the granularity its randomness requires: the
attention coefficients att pass through dropout, then messages aggregate
along the listed edges; out i d = sum over edges (s, t) with t = i of the
dropped-out coefficient at (i, s) times the transformed source feature
sum_e features s e * w e d. -/
def gatConvPass (mode : Mode) (mask : ℕ → ℕ → Bool) (att : ℕ → ℕ → ℚ)
    (w : ℕ → ℕ → ℚ) (features : Mat) (edges : List (ℕ × ℕ)) : Mat :=
  ⟨features.rows, features.cols, fun i d =>
    ((edges.filter (fun st => st.2 = i)).map (fun st =>
      dropoutAttention mode mask att i st.1 *
        ((List.range features.cols).map
          (fun e => features.entry st.1 e * w e d)).sum)).sum⟩

/-- The attention-graph factorization machine: linear part, attention
convolution parameters, and the stored graph state; its embedding lookup
indexes the convolution output rows. -/
def graphAttentionModel (mode : Mode) (mask : ℕ → ℕ → Bool)
    (lin : LinearFeaturesP) (att w : ℕ → ℕ → ℚ) (g : GraphModelP) (m : ℕ) :
    FMModelP m :=
  ⟨lin, fun i d => (gatConvPass mode mask att w g.features g.matrix).entry i d.1⟩

/-- C8: on a frozen model in evaluation mode, scoring is deterministic: the
forward output does not depend on the dropout randomness, so two runs of
the same batch against the same parameter state coincide, for the
attention-graph variant (whose dropout is inactive in evaluation mode) and
for the plain variant (which consumes no randomness at all). -/
theorem eval_forward_deterministic :
    ∀ (m : ℕ) (mask1 mask2 : ℕ → ℕ → Bool) (lin : LinearFeaturesP)
      (att w : ℕ → ℕ → ℚ) (g : GraphModelP) (rows : List (List ℕ))
      (plain : FMModelP m),
      (graphAttentionModel Mode.eval mask1 lin att w g m).forward rows =
        (graphAttentionModel Mode.eval mask2 lin att w g m).forward rows ∧
      plain.forward rows = plain.forward rows := by
  intro m mask1 mask2 lin att w g rows plain
  exact ⟨rfl, rfl⟩

/-- Errors the serving side can raise: the Finder's NotFoundError and the
model-bundle LoadError. -/
inductive CliError where
  | notFound
  | loadError

/-- Models the query loop of the recommend command (recommend.py lines
51-56): for each item name call the finder, then the recommender; the
source has no try/except inside the loop, so the first per-query exception
propagates, modelled by the Except short circuit. The finder is the
abstract parameter find (modelled from the spec: Finder fails with
NotFoundError when no catalog row matches; nnrecommend/operation.py is not
in the excerpt); the recommender is recs. -/
def recommendLoop (find : ℕ → Except CliError ℕ) (recs : ℕ → List (ℕ × ℚ)) :
    List ℕ → Except CliError (List (ℕ × List (ℕ × ℚ)))
  | [] => Except.ok []
  | q :: rest =>
      match find q with
      | Except.error e => Except.error e
      | Except.ok r =>
          match recommendLoop find recs rest with
          | Except.error e => Except.error e
          | Except.ok more => Except.ok ((r, recs r) :: more)

/-- Models the recommend command boundary (recommend.py lines 26-38 and
47-56): the try/except around load_model catches any load failure, logs it
and returns cleanly; on success the query loop runs unprotected. -/
def recommendCommand (load : Except CliError Unit)
    (find : ℕ → Except CliError ℕ) (recs : ℕ → List (ℕ × ℚ))
    (queries : List ℕ) : Except CliError (List (ℕ × List (ℕ × ℚ))) :=
  match load with
  | Except.error _ => Except.ok []
  | Except.ok _ => recommendLoop find recs queries

/-- The claim's per-query semantics, stated from the spec sentence: a
failing query is logged and skipped and processing continues with the next
query in the list. -/
def recommendLoopSkipOnError (find : ℕ → Except CliError ℕ)
    (recs : ℕ → List (ℕ × ℚ)) (queries : List ℕ) :
    List (ℕ × List (ℕ × ℚ)) :=
  queries.filterMap (fun q =>
    match find q with
    | Except.error _ => none
    | Except.ok r => some (r, recs r))

/-- A finder stub failing on query 0 and resolving every other query to
item 7. -/
def findStub : ℕ → Except CliError ℕ
  | 0 => Except.error CliError.notFound
  | _ => Except.ok 7

/-- A recommender stub returning one fixed recommendation. -/
def recsStub : ℕ → List (ℕ × ℚ) := fun _ => [(1, 2)]

/-- C5 counterexample: with two queries [0, 1] where the finder fails on
query 0, the recommend loop aborts with the error and query 1 is never
processed, while the claim's skip-and-continue semantics would still
process query 1. -/
theorem recommend_loop_abort_cex :
    recommendLoop findStub recsStub [0, 1] = Except.error CliError.notFound ∧
    recommendLoopSkipOnError findStub recsStub [0, 1] = [(7, [(1, 2)])] :=
  ⟨rfl, rfl⟩

/-- C5 amended: a model-load failure is caught by the try/except at the CLI
boundary and ends the invocation cleanly, but a per-query failure (such as
the Finder's NotFoundError) is not caught inside the query loop: it
propagates and aborts processing, so the remaining queries are not
processed. -/
theorem recommend_errors_propagate :
    (∀ (find : ℕ → Except CliError ℕ) (recs : ℕ → List (ℕ × ℚ))
        (queries : List ℕ),
      recommendCommand (Except.error CliError.loadError) find recs queries =
        Except.ok []) ∧
    (∀ (find : ℕ → Except CliError ℕ) (recs : ℕ → List (ℕ × ℚ))
        (q : ℕ) (rest : List ℕ) (e : CliError),
      find q = Except.error e →
      recommendLoop find recs (q :: rest) = Except.error e) := by
  constructor
  · intro find recs queries
    rfl
  · intro find recs q rest e h
    simp only [recommendLoop, h]

/-- Concrete instance of the error-propagation theorem: the finder stub
fails on query 0 and the loop over [0, 1] aborts with that error. -/
theorem recommend_errors_propagate_witness :
    findStub 0 = Except.error CliError.notFound ∧
    recommendLoop findStub recsStub (0 :: [1]) =
      Except.error CliError.notFound :=
  ⟨rfl, recommend_errors_propagate.2 findStub recsStub 0 [1]
    CliError.notFound rfl⟩

end Nnrecommend
